import Mathlib

/-!
Shallow embedding of the QEMU TCG plugins in contrib/plugins
(sca_hw.c, stoptrigger.c, skipinsn.c) together with theorems checking
the natural-language specification against the code.

Machine integers are modelled as Nat with explicit reduction modulo
2 ^ 64 (uint64_t) or a signed reinterpretation for int where the code
converts; byte arrays are lists of Nat (each entry a byte value).
-/

/-! ## sca_hw.c -/

/-- The precomputed 256-entry HAMMING_WEIGHT table, transcribed entry by
entry from sca_hw.c. -/
def HAMMING_WEIGHT : List Nat :=
  [0, 1, 1, 2, 1, 2, 2, 3, 1, 2, 2, 3, 2, 3, 3, 4, 1, 2, 2, 3, 2, 3, 3, 4,
   2, 3, 3, 4, 3, 4, 4, 5, 1, 2, 2, 3, 2, 3, 3, 4, 2, 3, 3, 4, 3, 4, 4, 5,
   2, 3, 3, 4, 3, 4, 4, 5, 3, 4, 4, 5, 4, 5, 5, 6, 1, 2, 2, 3, 2, 3, 3, 4,
   2, 3, 3, 4, 3, 4, 4, 5, 2, 3, 3, 4, 3, 4, 4, 5, 3, 4, 4, 5, 4, 5, 5, 6,
   2, 3, 3, 4, 3, 4, 4, 5, 3, 4, 4, 5, 4, 5, 5, 6, 3, 4, 4, 5, 4, 5, 5, 6,
   4, 5, 5, 6, 5, 6, 6, 7, 1, 2, 2, 3, 2, 3, 3, 4, 2, 3, 3, 4, 3, 4, 4, 5,
   2, 3, 3, 4, 3, 4, 4, 5, 3, 4, 4, 5, 4, 5, 5, 6, 2, 3, 3, 4, 3, 4, 4, 5,
   3, 4, 4, 5, 4, 5, 5, 6, 3, 4, 4, 5, 4, 5, 5, 6, 4, 5, 5, 6, 5, 6, 6, 7,
   2, 3, 3, 4, 3, 4, 4, 5, 3, 4, 4, 5, 4, 5, 5, 6, 3, 4, 4, 5, 4, 5, 5, 6,
   4, 5, 5, 6, 5, 6, 6, 7, 3, 4, 4, 5, 4, 5, 5, 6, 4, 5, 5, 6, 5, 6, 6, 7,
   4, 5, 5, 6, 5, 6, 6, 7, 5, 6, 6, 7, 6, 7, 7, 8]

/-- Table lookup HAMMING_WEIGHT[b] (b is a byte value, so b < 256 in
every reachable use). -/
def hw (b : Nat) : Nat := HAMMING_WEIGHT.getD b 0

/-- Specification-side population count of a byte: the number of set
bits among bit positions 0..7. -/
def popCount8 (b : Nat) : Nat := ((List.range 8).filter (fun i => b.testBit i)).length

/-- A Register track of sca_hw.c.  The two GByteArray buffers are given
physical identities lastId / newId so that the pointer swap in
compute_hw_reg_leakage is observable; last / new hold the bytes
currently stored in the buffer serving each role. -/
structure Register where
  lastId : Nat
  newId : Nat
  last : List Nat
  new : List Nat
deriving DecidableEq, Repr

/-- Leakage contribution of a changed register: sum of the
HAMMING_WEIGHT table over all bytes of the new value (the C loop runs
from the last byte down to byte 0; the sum is order-independent). -/
def byteLeakage (bs : List Nat) : Nat := (bs.map hw).sum

/-- One register step of compute_hw_reg_leakage: the scratch buffer is
truncated to size 0 and filled by qemu_plugin_read_register (its content
becomes readBytes and sz = readBytes.length); the g_assert
(sz == reg.last.length) is modelled by returning none on violation;
memcmp then decides between swapping the two buffers (with the leakage
contribution added) and leaving the roles unchanged. -/
def regDiff (reg : Register) (readBytes : List Nat) : Option (Nat × Register) :=
  if readBytes.length = reg.last.length then
    if readBytes = reg.last then
      some (0, { reg with new := readBytes })
    else
      some (byteLeakage readBytes,
            { lastId := reg.newId, newId := reg.lastId,
              last := readBytes, new := reg.last })
  else none

/-- compute_hw_reg_leakage: iterate over all register tracks in order,
reading each register (the freshly read values are supplied as the list
reads, one entry per register) and accumulating the leakage. -/
def compute_hw_reg_leakage : List Register → List (List Nat) → Option (Nat × List Register)
  | [], [] => some (0, [])
  | reg :: regs, v :: vs => do
      let (l1, reg1) ← regDiff reg v
      let (l2, regs2) ← compute_hw_reg_leakage regs vs
      pure (l1 + l2, reg1 :: regs2)
  | _, _ => none

/-- One textual record cpu=..., hw_leakage=... emitted via
qemu_plugin_outs (the formatting itself is out of scope; the record is
kept structured). -/
structure LogRecord where
  cpu : Int
  hw_leakage : Nat
deriving DecidableEq, Repr

/-- Per-vCPU state blob of sca_hw.c.  last_cpu_index is a C int;
registers is a GPtrArray pointer, NULL (none) until initialised or when
no register is tracked. -/
structure CPUState where
  last_cpu_index : Int
  registers : Option (List Register)
deriving DecidableEq, Repr

/-- Reinterpretation of an unsigned value as a 32-bit C int, as happens
when vcpu_insn_exec stores the unsigned cpu_index into the int field
last_cpu_index. -/
def intOfUInt32 (n : Nat) : Int :=
  let m : Nat := n % 2 ^ 32
  if m < 2 ^ 31 then (m : Int) else (m : Int) - 2 ^ 32

/-- init_vcpu_register: allocate the two byte arrays, read the initial
value into last (the g_assert (r > 0) is modelled by none on a
zero-length initial read); the scratch buffer starts empty. -/
def init_vcpu_register (initBytes : List Nat) : Option Register :=
  if initBytes.length = 0 then none else some ⟨0, 1, initBytes, []⟩

/-- registers_init: build one Register per descriptor returned by the
register enumeration (the initial reads are supplied as inits); an
empty enumeration yields NULL (none). -/
def registers_init (inits : List (List Nat)) : Option (List Register) := do
  let regs ← inits.mapM init_vcpu_register
  if regs.isEmpty then none else some regs

/-- vcpu_insn_exec of sca_hw.c: if the pending marker last_cpu_index is
set (not -1), diff all registers (the fresh reads are supplied as
reads) and emit one record for the previously pending vCPU; then mark
the current vCPU as pending.  A missing register array or a failed
diff assertion yields none (the C code would crash). -/
def vcpu_insn_exec_hw (cpu_index : Nat) (reads : List (List Nat)) (cpu : CPUState) :
    Option (CPUState × List LogRecord) :=
  if cpu.last_cpu_index = -1 then
    some ({ cpu with last_cpu_index := intOfUInt32 cpu_index }, [])
  else do
    let regs ← cpu.registers
    let (leak, regs2) ← compute_hw_reg_leakage regs reads
    pure ({ last_cpu_index := intOfUInt32 cpu_index, registers := some regs2 },
          [{ cpu := cpu.last_cpu_index, hw_leakage := leak }])

/-- A sequence of per-instruction callbacks on one vCPU: each element of
seqReads supplies the register values read at that callback; the emitted
records are concatenated in order. -/
def runInsns (cpu_index : Nat) : List (List (List Nat)) → CPUState → Option (CPUState × List LogRecord)
  | [], cpu => some (cpu, [])
  | r :: rs, cpu => do
      let (cpu1, recs1) ← vcpu_insn_exec_hw cpu_index r cpu
      let (cpu2, recs2) ← runInsns cpu_index rs cpu1
      pure (cpu2, recs1 ++ recs2)

/-- The zeroed CPU entry produced by growing the GArray (created with
clear_ = true): last_cpu_index 0, registers NULL. -/
def zeroCPU : CPUState := { last_cpu_index := 0, registers := none }

/-- The growth step of vcpu_init under the writer lock: if vcpu_index is
at or beyond the current length, g_array_set_size grows the table to
vcpu_index + 1, filling new slots with zeroed entries; otherwise the
table is untouched. -/
def ensureSize (t : List CPUState) (i : Nat) : List CPUState :=
  if i < t.length then t
  else t ++ List.replicate (i + 1 - t.length) zeroCPU

/-- vcpu_init of sca_hw.c: grow the table if needed, then construct the
entry at vcpu_index, with last_cpu_index = -1 and the freshly
initialised register tracks (their initial reads supplied as inits). -/
def vcpu_init_hw (t : List CPUState) (i : Nat) (inits : List (List Nat)) : List CPUState :=
  (ensureSize t i).set i { last_cpu_index := -1, registers := registers_init inits }

/-! ## stoptrigger.c -/

/-- The diagnostic messages emitted by stoptrigger.c (string formatting
is out of scope; messages are kept structured, each carrying the data
interpolated by the C format string). -/
inductive StopMsg
  | icountReached (vaddr : Nat)
  | addressReached (vaddr : Nat)
  | snapshotSaved (nm : String)
deriving DecidableEq, Repr

/-- Observable effects of the stoptrigger callbacks, in order of
occurrence: qemu_plugin_outs, qemu_plugin_exit_current_tb,
qemu_plugin_savevm. -/
inductive StopAction
  | outs (m : StopMsg)
  | exitTB
  | savevm (nm : String)
deriving DecidableEq, Repr

/-- The plugin configuration of stoptrigger.c, immutable after
qemu_plugin_install: the file-scope variables exit_on_icount, icount,
icount_exit_code, exit_on_address, addrs_ht and snapshot_name. -/
structure StopConfig where
  exit_on_icount : Bool
  icount : Nat
  icount_exit_code : Int
  exit_on_address : Bool
  addrs : List (Nat × Int)
  snapshot_name : Option String
deriving DecidableEq, Repr

/-- g_hash_table_insert on addrs_ht: inserting an existing key replaces
its value. -/
def htInsert (l : List (Nat × Int)) (k : Nat) (v : Int) : List (Nat × Int) :=
  (l.filter (fun p => p.1 != k)) ++ [(k, v)]

/-- g_hash_table_lookup on addrs_ht followed by GPOINTER_TO_INT: a
missing key yields NULL, i.e. exit code 0. -/
def htLookup (l : List (Nat × Int)) (k : Nat) : Int :=
  ((l.find? (fun p => p.1 == k)).map (fun p => p.2)).getD 0

/-- g_hash_table_contains on addrs_ht. -/
def htContains (l : List (Nat × Int)) (k : Nat) : Bool :=
  (l.find? (fun p => p.1 == k)).isSome

/-- Mutable run-time state of stoptrigger.c: the per-vCPU scoreboard
insn_count and the process-global flag tb_exited. -/
structure StopState where
  counts : Nat → Nat
  tb_exited : Bool

/-- exit_icount_reached: with a snapshot configured, the first call
(tb_exited still false) emits the diagnostic, requests leaving the
current translation block and returns; the second call saves the
snapshot and exits with icount_exit_code.  Without a snapshot the
process exits immediately.  Result: (actions in order, new tb_exited,
process exit code if the process terminates).  The cpu_index argument
is unused by the C code and kept for fidelity. -/
def exit_icount_reached (cfg : StopConfig) (cpu_index : Nat) (tb_exited : Bool)
    (insn_vaddr : Nat) : List StopAction × Bool × Option Int :=
  match cfg.snapshot_name with
  | some nm =>
      if tb_exited then
        ([StopAction.savevm nm, StopAction.outs (StopMsg.snapshotSaved nm)],
         tb_exited, some cfg.icount_exit_code)
      else
        ([StopAction.outs (StopMsg.icountReached insn_vaddr), StopAction.exitTB],
         true, none)
  | none =>
      ([StopAction.outs (StopMsg.icountReached insn_vaddr)],
       tb_exited, some cfg.icount_exit_code)

/-- exit_address_reached: same two-phase structure as
exit_icount_reached, but the exit code is looked up in addrs_ht for the
triggering address. -/
def exit_address_reached (cfg : StopConfig) (cpu_index : Nat) (tb_exited : Bool)
    (insn_vaddr : Nat) : List StopAction × Bool × Option Int :=
  match cfg.snapshot_name with
  | some nm =>
      if tb_exited then
        ([StopAction.savevm nm, StopAction.outs (StopMsg.snapshotSaved nm)],
         tb_exited, some (htLookup cfg.addrs insn_vaddr))
      else
        ([StopAction.outs (StopMsg.addressReached insn_vaddr), StopAction.exitTB],
         true, none)
  | none =>
      ([StopAction.outs (StopMsg.addressReached insn_vaddr)],
       tb_exited, some (htLookup cfg.addrs insn_vaddr))

/-- Execution-time effect of the instrumentation registered by
vcpu_tb_trans of stoptrigger.c for one retired instruction at
insn_vaddr on vCPU c: if exit_on_icount, the inline op adds 1 to the
per-vCPU scoreboard (a uint64_t) and the conditional callback fires
when the counter is ≥ icount + 1 (both computed as uint64_t); if
exit_on_address and a trigger is registered for this address, the
address callback runs.  When the icount callback requests a
translation-block exit, execution leaves the block before any further
callback of this instruction runs. -/
def stepInsn (cfg : StopConfig) (st : StopState) (c : Nat) (vaddr : Nat) :
    StopState × List StopAction × Option Int :=
  if cfg.exit_on_icount then
    let cnt := (st.counts c + 1) % 2 ^ 64
    let st1 : StopState := { st with counts := fun i => if i = c then cnt else st.counts i }
    if (cfg.icount + 1) % 2 ^ 64 ≤ cnt then
      let r := exit_icount_reached cfg c st1.tb_exited vaddr
      ({ st1 with tb_exited := r.2.1 }, r.1, r.2.2)
    else if cfg.exit_on_address && htContains cfg.addrs vaddr then
      let r := exit_address_reached cfg c st1.tb_exited vaddr
      ({ st1 with tb_exited := r.2.1 }, r.1, r.2.2)
    else (st1, [], none)
  else if cfg.exit_on_address && htContains cfg.addrs vaddr then
    let r := exit_address_reached cfg c st.tb_exited vaddr
    ({ st with tb_exited := r.2.1 }, r.1, r.2.2)
  else (st, [], none)

/-- Run a sequence of retired instructions (their virtual addresses) on
vCPU c, stopping as soon as a callback terminates the process. -/
def runStop (cfg : StopConfig) (c : Nat) : List Nat → StopState → StopState × List StopAction × Option Int
  | [], st => (st, [], none)
  | v :: vs, st =>
      let r := stepInsn cfg st c v
      match r.2.2 with
      | some code => (r.1, r.2.1, some code)
      | none =>
          let rest := runStop cfg c vs r.1
          (rest.1, r.2.1 ++ rest.2.1, rest.2.2)

/-- The initial stoptrigger run-time state: all scoreboard slots zero,
tb_exited false. -/
def initStop : StopState := { counts := fun _ => 0, tb_exited := false }

/-! ### stoptrigger.c argument parsing -/

/-- Failure modes of qemu_plugin_install of stoptrigger.c.  Each error
constructor stands for the descriptive message printed to standard
error together with the non-zero (-1) return; nullCrash models the
glib critical / crash when a key is given without any value
(g_strsplit is called on NULL). -/
inductive InstallError
  | icountParseFailed
  | optionParseFailed
  | missingTrigger
  | nullCrash
deriving DecidableEq, Repr

/-- ASCII whitespace accepted by g_ascii_strtoull before the number. -/
def isAsciiSpace (c : Char) : Bool :=
  c = ' ' || c = '\t' || c = '\n' || c = '\x0b' || c = '\x0c' || c = '\r'

/-- Value of an ASCII hex digit, none for a non-digit. -/
def digitValue (c : Char) : Option Nat :=
  if '0' ≤ c ∧ c ≤ '9' then some (c.toNat - '0'.toNat)
  else if 'a' ≤ c ∧ c ≤ 'f' then some (c.toNat - 'a'.toNat + 10)
  else if 'A' ≤ c ∧ c ≤ 'F' then some (c.toNat - 'A'.toNat + 10)
  else none

/-- Consume the maximal run of digits valid in the given base,
accumulating the value (exactly, clamping happens afterwards). -/
def parseDigits (base : Nat) : List Char → Nat → Nat
  | [], acc => acc
  | c :: cs, acc =>
      match digitValue c with
      | some d => if d < base then parseDigits base cs (acc * base + d) else acc
      | none => acc

/-- g_ascii_strtoull with base 0: skip ASCII whitespace, take an
optional sign, detect the base from a 0x / 0X prefix (hex), a leading 0
(octal) or neither (decimal), parse the maximal digit run, clamp to
G_MAXUINT64 on overflow, and negate modulo 2 ^ 64 for a leading minus.
No digits yields 0. -/
def strtoull0 (s : String) : Nat :=
  let cs := s.toList.dropWhile isAsciiSpace
  let signed : Bool × List Char :=
    match cs with
    | '-' :: rest => (true, rest)
    | '+' :: rest => (false, rest)
    | _ => (false, cs)
  let v : Nat :=
    match signed.2 with
    | '0' :: x :: rest =>
        if x = 'x' ∨ x = 'X' then
          match rest with
          | r :: _ => if (digitValue r).isSome then parseDigits 16 rest 0 else 0
          | [] => 0
        else parseDigits 8 (x :: rest) 0
    | '0' :: [] => 0
    | other => parseDigits 10 other 0
  let m := min v (2 ^ 64 - 1)
  if signed.1 then (2 ^ 64 - m) % 2 ^ 64 else m

/-- g_strsplit (s, sep, 2): an empty string gives no tokens; otherwise
split at the first separator only, the remainder (separators included)
forming the second token; without a separator there is one token. -/
def splitMax2 (sep : Char) (s : String) : List String :=
  if s = "" then []
  else
    let cs := s.toList
    let pre := cs.takeWhile (fun c => c ≠ sep)
    match cs.drop pre.length with
    | [] => [String.mk pre]
    | _ :: rest => [String.mk pre, String.mk rest]

/-- Processing of a single key=value argument by the qemu_plugin_install
loop of stoptrigger.c. -/
def parseOpt (cfg : StopConfig) (opt : String) : Except InstallError StopConfig :=
  match splitMax2 '=' opt with
  | key :: rest =>
      if key = "icount" then
        match rest with
        | [v] =>
            let its := splitMax2 ':' v
            let tok := its.headD ""
            let n := strtoull0 tok
            if n < 1 ∨ tok.toList.contains '-' then
              Except.error InstallError.icountParseFailed
            else
              let code : Int :=
                match its with
                | [_, ctok] => intOfUInt32 (strtoull0 ctok)
                | _ => cfg.icount_exit_code
              Except.ok { cfg with exit_on_icount := true, icount := n,
                                   icount_exit_code := code }
        | _ => Except.error InstallError.nullCrash
      else if key = "addr" then
        match rest with
        | [v] =>
            let ats := splitMax2 ':' v
            let exit_addr := strtoull0 (ats.headD "")
            let code : Int :=
              match ats with
              | [_, ctok] => intOfUInt32 (strtoull0 ctok)
              | _ => 0
            Except.ok { cfg with exit_on_address := true,
                                 addrs := htInsert cfg.addrs exit_addr code }
        | _ => Except.error InstallError.nullCrash
      else if key = "savevm" then
        match rest with
        | [v] => Except.ok { cfg with snapshot_name := some v }
        | _ => Except.ok cfg
      else Except.error InstallError.optionParseFailed
  | [] => Except.error InstallError.optionParseFailed

/-- The initial (zero) configuration of the file-scope variables of
stoptrigger.c. -/
def initStopConfig : StopConfig :=
  { exit_on_icount := false, icount := 0, icount_exit_code := 0,
    exit_on_address := false, addrs := [], snapshot_name := none }

/-- qemu_plugin_install of stoptrigger.c: fold the argument loop over
argv (stopping at the first error), then reject a configuration with
neither an icount limit nor an address trigger.  An error result means
the install returned -1 after printing a descriptive message, without
registering any instrumentation callback. -/
def qemu_plugin_install (argv : List String) : Except InstallError StopConfig :=
  match argv.foldlM parseOpt initStopConfig with
  | Except.error e => Except.error e
  | Except.ok cfg =>
      if !cfg.exit_on_icount && !cfg.exit_on_address then
        Except.error InstallError.missingTrigger
      else Except.ok cfg

/-! ## skipinsn.c -/

/-- An InsnRecord of skipinsn.c: virtual address and byte length of one
instruction. -/
structure InsnInfo where
  vaddr : Nat
  size : Nat
deriving DecidableEq, Repr

/-- Observable effects of the skipinsn callback, in order. -/
inductive SkipAction
  | outsSkipping (vaddr : Nat)
  | setPC (target : Nat)
  | outsPcSet (target : Nat)
  | exitTB
deriving DecidableEq, Repr

/-- vcpu_insn_exec of skipinsn.c.  Modelled from the spec:
qemu_plugin_exit_current_tb is not part of this tree; per the spec the
callback requests termination of the current translation block and
returns (the request is deferred), so the trailing increment of
executed_instructions still executes, making the counter advance by two
on the skipping invocation.  The counter is a uint64_t. -/
def skip_insn_exec (icount : Nat) (info : InsnInfo) (c : Nat) : Nat × List SkipAction :=
  if c = icount then
    let target := (info.vaddr + info.size) % 2 ^ 64
    (((c + 1) % 2 ^ 64 + 1) % 2 ^ 64,
     [SkipAction.outsSkipping info.vaddr, SkipAction.setPC target,
      SkipAction.outsPcSet target, SkipAction.exitTB])
  else ((c + 1) % 2 ^ 64, [])

/-- Run a sequence of instrumented instruction executions through the
skipinsn callback, threading the global counter and concatenating the
actions. -/
def runSkip (icount : Nat) (c : Nat) : List InsnInfo → Nat × List SkipAction
  | [] => (c, [])
  | v :: vs =>
      let r := skip_insn_exec icount v c
      let rest := runSkip icount r.1 vs
      (rest.1, r.2 ++ rest.2)

/-- Recogniser for the translation-block exit request among skipinsn
actions. -/
def isExitTB : SkipAction → Bool
  | SkipAction.exitTB => true
  | _ => false

/-- Number of skip firings visible in an action trace (each firing
produces exactly one exitTB request). -/
def skipCount (as : List SkipAction) : Nat := as.countP isExitTB

/-! ## Helper lemmas -/

set_option maxRecDepth 4096 in
/-- The 256-entry table of sca_hw.c agrees with the population count on
every byte value. -/
theorem hw_eq_popCount8 : ∀ b, b < 256 → hw b = popCount8 b := by decide

/-- On a list of byte values, summing the table equals summing the
population counts. -/
theorem byteLeakage_eq_popSum (v : List Nat) (hb : ∀ b ∈ v, b < 256) :
    byteLeakage v = (v.map popCount8).sum := by
  unfold byteLeakage
  induction v with
  | nil => rfl
  | cons a as ih =>
      simp only [List.map_cons, List.sum_cons]
      rw [hw_eq_popCount8 a (hb a (List.mem_cons_self a as)),
          ih (fun b hbm => hb b (List.mem_cons_of_mem a hbm))]

/-- For a vCPU index below 2 ^ 31 the stored C int equals the index
itself. -/
theorem intOfUInt32_small (c : Nat) (hc : c < 2 ^ 31) : intOfUInt32 c = (c : Int) := by
  unfold intOfUInt32
  have h32 : c % 2 ^ 32 = c := Nat.mod_eq_of_lt (by omega)
  simp only [h32]
  rw [if_pos hc]

/-- A stored small vCPU index is never the unset marker -1. -/
theorem intOfUInt32_ne_neg_one (c : Nat) (hc : c < 2 ^ 31) : intOfUInt32 c ≠ -1 := by
  rw [intOfUInt32_small c hc]
  omega

/-! ## Claim C1 -/

/-- Claim C1: for every tracked register observed by the per-instruction
diff, a register whose freshly read bytes differ from the stored
previous bytes contributes the sum of the population counts of the
bytes of the new value, an unchanged register contributes exactly 0,
and compute_hw_reg_leakage returns the sum of these contributions over
all registers. -/
theorem sca_hw_leakage_is_popcount_sum (regs : List Register) (vs : List (List Nat))
    (hlen : regs.length = vs.length)
    (hal : ∀ p ∈ regs.zip vs, p.2.length = p.1.last.length ∧ ∀ b ∈ p.2, b < 256) :
    ∃ regs2, compute_hw_reg_leakage regs vs =
      some (((regs.zip vs).map
        (fun p => if p.2 = p.1.last then 0 else (p.2.map popCount8).sum)).sum, regs2) := by
  induction regs generalizing vs with
  | nil =>
      cases vs with
      | nil => exact ⟨[], rfl⟩
      | cons v vs' => simp at hlen
  | cons r rs ih =>
      cases vs with
      | nil => simp at hlen
      | cons v vs' =>
          have hhead := hal (r, v) (by simp [List.zip_cons_cons])
          obtain ⟨hv, hb⟩ := hhead
          have htail : ∀ p ∈ rs.zip vs', p.2.length = p.1.last.length ∧ ∀ b ∈ p.2, b < 256 := by
            intro p hp
            exact hal p (by simp [List.zip_cons_cons, hp])
          obtain ⟨regs2', htl⟩ := ih vs' (by simpa using hlen) htail
          by_cases heq : v = r.last
          · refine ⟨{ r with new := v } :: regs2', ?_⟩
            simp only [compute_hw_reg_leakage, regDiff, if_pos hv, if_pos heq,
              Option.bind_eq_bind, Option.some_bind, htl, List.zip_cons_cons,
              List.map_cons, List.sum_cons, if_pos heq]
            rfl
          · refine ⟨{ lastId := r.newId, newId := r.lastId, last := v, new := r.last } :: regs2', ?_⟩
            simp only [compute_hw_reg_leakage, regDiff, if_pos hv, if_neg heq,
              Option.bind_eq_bind, Option.some_bind, htl, List.zip_cons_cons,
              List.map_cons, List.sum_cons, if_neg heq]
            rw [byteLeakage_eq_popSum v hb]
            rfl

set_option maxRecDepth 4096 in
/-- Claim C1 witness: three one-byte registers, changing 0x00 to 0xFF
(contribution 8), 0x00 to 0x0F (contribution 4) and unchanged 0x05
(contribution 0); the total is 12. -/
theorem sca_hw_leakage_is_popcount_sum_witness :
    ∃ regs2, compute_hw_reg_leakage
      [⟨0, 1, [0], []⟩, ⟨0, 1, [0], []⟩, ⟨0, 1, [5], []⟩]
      [[255], [15], [5]] = some (12, regs2) := by
  obtain ⟨r2, h⟩ := sca_hw_leakage_is_popcount_sum
    [⟨0, 1, [0], []⟩, ⟨0, 1, [0], []⟩, ⟨0, 1, [5], []⟩]
    [[255], [15], [5]] (by decide) (by decide)
  have hsum : ((([⟨0, 1, [0], []⟩, ⟨0, 1, [0], []⟩, ⟨0, 1, [5], []⟩] : List Register).zip
      [[255], [15], [5]]).map
        (fun p => if p.2 = p.1.last then 0 else (p.2.map popCount8).sum)).sum = 12 := by decide
  rw [hsum] at h
  exact ⟨r2, h⟩

/-! ## Claim C2 -/

/-- Once the pending marker is set, a successful callback emits exactly
one record and keeps the marker set, so a successful run of n callbacks
emits exactly n records. -/
theorem runInsns_pending (c : Nat) (hc : c < 2 ^ 31) :
    ∀ (seq : List (List (List Nat))) (cpu : CPUState), cpu.last_cpu_index ≠ -1 →
      ∀ st' recs, runInsns c seq cpu = some (st', recs) → recs.length = seq.length := by
  intro seq
  induction seq with
  | nil =>
      intro cpu hne st' recs h
      simp only [runInsns, Option.some.injEq, Prod.mk.injEq] at h
      rw [← h.2]
      rfl
  | cons r rs ih =>
      intro cpu hne st' recs h
      simp only [runInsns, vcpu_insn_exec_hw, if_neg hne, Option.bind_eq_bind] at h
      cases hr : cpu.registers with
      | none => rw [hr] at h; simp at h
      | some regs =>
          rw [hr] at h
          simp only [Option.some_bind] at h
          cases hcmp : compute_hw_reg_leakage regs r with
          | none => rw [hcmp] at h; simp at h
          | some p =>
              rw [hcmp] at h
              simp only [Option.some_bind, Option.pure_def] at h
              cases hrest : runInsns c rs
                  { last_cpu_index := intOfUInt32 c, registers := some p.2 } with
              | none => rw [hrest] at h; simp at h
              | some q =>
                  rw [hrest] at h
                  simp only [Option.some_bind, Option.some.injEq, Prod.mk.injEq] at h
                  have hq := ih { last_cpu_index := intOfUInt32 c, registers := some p.2 }
                    (intOfUInt32_ne_neg_one c hc) q.1 q.2 (by rw [hrest])
                  rw [← h.2]
                  simp [hq]

/-- Claim C2: on a freshly initialised vCPU (pending marker -1) the very
first callback emits no record, every subsequent successful callback
emits exactly one record, and a successful run of N callbacks emits
exactly N - 1 records (the last instruction is never reported). -/
theorem sca_hw_record_count (c : Nat) (regs : Option (List Register))
    (seq : List (List (List Nat))) (st' : CPUState) (recs : List LogRecord)
    (hc : c < 2 ^ 31)
    (h : runInsns c seq { last_cpu_index := -1, registers := regs } = some (st', recs)) :
    recs.length = seq.length - 1 ∧
    (∀ r, vcpu_insn_exec_hw c r { last_cpu_index := -1, registers := regs } =
        some ({ last_cpu_index := intOfUInt32 c, registers := regs }, [])) ∧
    (∀ (cpu : CPUState) r out, cpu.last_cpu_index ≠ -1 →
        vcpu_insn_exec_hw c r cpu = some out → out.2.length = 1) := by
  refine ⟨?_, ?_, ?_⟩
  · cases seq with
    | nil =>
        simp only [runInsns, Option.some.injEq, Prod.mk.injEq] at h
        rw [← h.2]
        rfl
    | cons r rs =>
        have hfirst : vcpu_insn_exec_hw c r { last_cpu_index := -1, registers := regs } =
            some ({ last_cpu_index := intOfUInt32 c, registers := regs }, []) := by
          simp [vcpu_insn_exec_hw]
        simp only [runInsns, Option.bind_eq_bind] at h
        rw [hfirst] at h
        simp only [Option.some_bind] at h
        cases hrest : runInsns c rs
            { last_cpu_index := intOfUInt32 c, registers := regs } with
        | none => rw [hrest] at h; simp at h
        | some q =>
            rw [hrest] at h
            simp only [Option.some_bind, Option.pure_def, Option.some.injEq,
              Prod.mk.injEq] at h
            have hq := runInsns_pending c hc rs
              { last_cpu_index := intOfUInt32 c, registers := regs }
              (intOfUInt32_ne_neg_one c hc) q.1 q.2 (by rw [hrest])
            rw [← h.2]
            simp [hq]
  · intro r
    simp [vcpu_insn_exec_hw]
  · intro cpu r out hne hout
    simp only [vcpu_insn_exec_hw, if_neg hne, Option.bind_eq_bind] at hout
    cases hr : cpu.registers with
    | none => rw [hr] at hout; simp at hout
    | some rgs =>
        rw [hr] at hout
        simp only [Option.some_bind] at hout
        cases hcmp : compute_hw_reg_leakage rgs r with
        | none => rw [hcmp] at hout; simp at hout
        | some p =>
            rw [hcmp] at hout
            simp only [Option.some_bind, Option.pure_def, Option.some.injEq] at hout
            rw [← hout]
            rfl

set_option maxRecDepth 4096 in
/-- Claim C2 witness: three callbacks on vCPU 0 from a fresh state emit
exactly two records. -/
theorem sca_hw_record_count_witness :
    ([⟨0, 1⟩, ⟨0, 1⟩] : List LogRecord).length =
      ([[[1]], [[1]], [[2]]] : List (List (List Nat))).length - 1 :=
  (sca_hw_record_count 0 (some [⟨0, 1, [0], []⟩]) [[[1]], [[1]], [[2]]]
    { last_cpu_index := 0, registers := some [⟨0, 1, [2], [1]⟩] }
    [⟨0, 1⟩, ⟨0, 1⟩] (by decide) (by decide)).1

/-! ## Claim C7 (corrected) -/

/-- Claim C7 counterexample: when the freshly read value equals the
stored previous value, the scratch buffer is NOT left untouched — it is
truncated and refilled by the register read.  With previous [0x00] and
scratch still holding [0x01] from an earlier swap, reading [0x00]
(identical to previous) leaves the scratch buffer holding [0x00], not
its prior content [0x01]. -/
theorem sca_hw_scratch_overwritten :
    regDiff ⟨0, 1, [0], [1]⟩ [0] = some (0, ⟨0, 1, [0], [0]⟩) ∧
    (⟨0, 1, [0], [0]⟩ : Register).new ≠ (⟨0, 1, [0], [1]⟩ : Register).new := by
  decide

/-- Claim C7 as amended: across every diff operation, if the newly read
value differs from the stored previous value then the previous and
scratch buffers are exchanged by pointer swap — previous now holds the
new value and the swapped-out buffer still holds the old previous
bytes, so no byte copy occurs; if the value is identical, no swap
occurs and the previous buffer is untouched, while the scratch buffer
holds the freshly read bytes (byte-identical to previous); after every
successful operation previous.length = scratch.length = the register
width. -/
theorem sca_hw_regdiff_swap (reg : Register) (v : List Nat)
    (h : v.length = reg.last.length) :
    (v ≠ reg.last →
       regDiff reg v = some (byteLeakage v,
         { lastId := reg.newId, newId := reg.lastId, last := v, new := reg.last })) ∧
    (v = reg.last →
       regDiff reg v = some (0, { reg with new := reg.last })) ∧
    (∀ l r2, regDiff reg v = some (l, r2) →
       r2.last.length = reg.last.length ∧ r2.new.length = reg.last.length) := by
  refine ⟨?_, ?_, ?_⟩
  · intro hne
    simp [regDiff, if_pos h, if_neg hne]
  · intro heq
    subst heq
    simp [regDiff, if_pos h]
  · intro l r2 hr
    simp only [regDiff, if_pos h] at hr
    by_cases heq : v = reg.last
    · rw [if_pos heq] at hr
      simp only [Option.some.injEq, Prod.mk.injEq] at hr
      rw [← hr.2]
      subst heq
      exact ⟨h, h⟩
    · rw [if_neg heq] at hr
      simp only [Option.some.injEq, Prod.mk.injEq] at hr
      rw [← hr.2]
      exact ⟨h, rfl⟩

set_option maxRecDepth 4096 in
/-- Claim C7 witness: a one-byte register changing 0x00 to 0xFF swaps
its two buffers, previous takes the new value and the old previous
bytes stay in the swapped-out buffer. -/
theorem sca_hw_regdiff_swap_witness :
    regDiff ⟨0, 1, [0], [2]⟩ [255] = some (8, ⟨1, 0, [255], [0]⟩) := by
  have h := (sca_hw_regdiff_swap ⟨0, 1, [0], [2]⟩ [255] (by decide)).1 (by decide)
  rw [h]
  decide

/-! ## Claim C8 -/

/-- Claim C8: the per-vCPU table never shrinks; vcpu_init grows it to
index + 1 (zero-filling intermediate slots) exactly when the index is
at or beyond the current length and leaves the length unchanged
otherwise; after initialising index 3 and then index 1 the length is at
least 4 and the entry at index 1 is the constructed entry. -/
theorem sca_hw_table_never_shrinks (t : List CPUState) (i : Nat) (inits : List (List Nat)) :
    t.length ≤ (vcpu_init_hw t i inits).length ∧
    (i < t.length → (vcpu_init_hw t i inits).length = t.length) ∧
    (t.length ≤ i → (vcpu_init_hw t i inits).length = i + 1) ∧
    (∀ inits3 inits1,
       4 ≤ (vcpu_init_hw (vcpu_init_hw t 3 inits3) 1 inits1).length ∧
       (vcpu_init_hw (vcpu_init_hw t 3 inits3) 1 inits1).get? 1 =
         some { last_cpu_index := -1, registers := registers_init inits1 }) := by
  have hlen : ∀ (s : List CPUState) (j : Nat) (ins : List (List Nat)),
      (vcpu_init_hw s j ins).length = if j < s.length then s.length else j + 1 := by
    intro s j ins
    unfold vcpu_init_hw ensureSize
    by_cases hj : j < s.length
    · simp [hj]
    · simp only [hj, if_false, List.length_set, List.length_append, List.length_replicate]
      omega
  refine ⟨?_, ?_, ?_, ?_⟩
  · rw [hlen]
    by_cases hi : i < t.length <;> simp [hi] <;> omega
  · intro hi
    rw [hlen]
    simp [hi]
  · intro hi
    rw [hlen]
    have : ¬ i < t.length := by omega
    simp [this]
  · intro inits3 inits1
    have h3 : 4 ≤ (vcpu_init_hw t 3 inits3).length := by
      rw [hlen]
      by_cases h : 3 < t.length <;> simp [h] <;> omega
    have h1 : (1 : Nat) < (vcpu_init_hw t 3 inits3).length := by omega
    constructor
    · rw [hlen]
      simp [h1]
      omega
    · show ((ensureSize (vcpu_init_hw t 3 inits3) 1).set 1
            { last_cpu_index := -1, registers := registers_init inits1 }).get? 1 =
          some { last_cpu_index := -1, registers := registers_init inits1 }
      have hens : ensureSize (vcpu_init_hw t 3 inits3) 1 = vcpu_init_hw t 3 inits3 := by
        unfold ensureSize
        rw [if_pos h1]
      rw [hens, List.get?_eq_getElem?, List.getElem?_set_eq_of_lt]
      exact h1

/-- Claim C8 witness: from the empty table, initialising vCPU 3 gives
length 4; then initialising vCPU 1 keeps length at least 4 and a lookup
at index 1 returns the constructed entry. -/
theorem sca_hw_table_never_shrinks_witness :
    (vcpu_init_hw ([] : List CPUState) 3 [[1]]).length = 4 ∧
    4 ≤ (vcpu_init_hw (vcpu_init_hw ([] : List CPUState) 3 [[1]]) 1 [[2]]).length ∧
    (vcpu_init_hw (vcpu_init_hw ([] : List CPUState) 3 [[1]]) 1 [[2]]).get? 1 =
      some { last_cpu_index := -1, registers := registers_init [[2]] } :=
  ⟨(sca_hw_table_never_shrinks [] 3 [[1]]).2.2.1 (by decide),
   ((sca_hw_table_never_shrinks [] 0 []).2.2.2 [[1]] [[2]]).1,
   ((sca_hw_table_never_shrinks [] 0 []).2.2.2 [[1]] [[2]]).2⟩

/-! ## Claim C3 -/

/-- While the per-vCPU counter stays at or below the configured limit,
an icount-only configuration produces no action and no exit, and each
retired instruction adds exactly one to the counter. -/
theorem stop_run_below (cfg : StopConfig) (c : Nat)
    (h1 : cfg.exit_on_icount = true) (h2 : cfg.exit_on_address = false)
    (hw64 : cfg.icount + 1 < 2 ^ 64) :
    ∀ (vs : List Nat) (st : StopState), st.counts c + vs.length ≤ cfg.icount →
      (runStop cfg c vs st).2.1 = [] ∧ (runStop cfg c vs st).2.2 = none ∧
      (runStop cfg c vs st).1.counts c = st.counts c + vs.length ∧
      (runStop cfg c vs st).1.tb_exited = st.tb_exited := by
  intro vs
  induction vs with
  | nil =>
      intro st hb
      exact ⟨rfl, rfl, by simp [runStop], rfl⟩
  | cons v vs ih =>
      intro st hb
      simp only [List.length_cons] at hb
      have hcnt : (st.counts c + 1) % 2 ^ 64 = st.counts c + 1 :=
        Nat.mod_eq_of_lt (by omega)
      have htrig : (cfg.icount + 1) % 2 ^ 64 = cfg.icount + 1 := Nat.mod_eq_of_lt hw64
      have hnofire : ¬ ((cfg.icount + 1) % 2 ^ 64 ≤ (st.counts c + 1) % 2 ^ 64) := by
        rw [hcnt, htrig]
        omega
      have hstep : stepInsn cfg st c v =
          ({ st with counts := fun i => if i = c then (st.counts c + 1) % 2 ^ 64
                                        else st.counts i }, [], none) := by
        simp only [stepInsn, h1, reduceIte, if_neg hnofire, h2, Bool.false_and]
        rfl
      have hproj : ({ st with counts := fun i => if i = c then (st.counts c + 1) % 2 ^ 64
                                        else st.counts i } : StopState).counts c
          = (st.counts c + 1) % 2 ^ 64 := by simp
      have hst1 : ({ st with counts := fun i => if i = c then (st.counts c + 1) % 2 ^ 64
                                       else st.counts i } : StopState).counts c
          = st.counts c + 1 := by rw [hproj, hcnt]
      obtain ⟨ha, he, hc, ht⟩ := ih
        { st with counts := fun i => if i = c then (st.counts c + 1) % 2 ^ 64
                                     else st.counts i }
        (by rw [hst1]; omega)
      have hrun : runStop cfg c (v :: vs) st =
          ((runStop cfg c vs
              { st with counts := fun i => if i = c then (st.counts c + 1) % 2 ^ 64
                                           else st.counts i }).1,
           [] ++ (runStop cfg c vs
              { st with counts := fun i => if i = c then (st.counts c + 1) % 2 ^ 64
                                           else st.counts i }).2.1,
           (runStop cfg c vs
              { st with counts := fun i => if i = c then (st.counts c + 1) % 2 ^ 64
                                           else st.counts i }).2.2) := by
        simp only [runStop, hstep]
      refine ⟨?_, ?_, ?_, ?_⟩
      · rw [hrun]
        simpa using ha
      · rw [hrun]
        exact he
      · rw [hrun]
        rw [hc, hst1, List.length_cons]
        omega
      · rw [hrun]
        exact ht

/-- When the per-vCPU counter has reached the limit, the next retired
instruction fires the conditional callback: with no snapshot configured
the process exits with the configured exit code after emitting the
icount diagnostic. -/
theorem stop_run_fire (cfg : StopConfig) (c : Nat)
    (h1 : cfg.exit_on_icount = true) (h2 : cfg.exit_on_address = false)
    (h3 : cfg.snapshot_name = none) (hw64 : cfg.icount + 1 < 2 ^ 64) :
    ∀ (vs : List Nat) (vaddr : Nat) (st : StopState), st.counts c + vs.length = cfg.icount →
      (runStop cfg c (vs ++ [vaddr]) st).2.1 =
        [StopAction.outs (StopMsg.icountReached vaddr)] ∧
      (runStop cfg c (vs ++ [vaddr]) st).2.2 = some cfg.icount_exit_code := by
  intro vs
  induction vs with
  | nil =>
      intro vaddr st hb
      simp only [List.length_nil, Nat.add_zero] at hb
      have hfire : (cfg.icount + 1) % 2 ^ 64 ≤ (st.counts c + 1) % 2 ^ 64 := by
        rw [hb]
      have hcb : exit_icount_reached cfg c
          ({ st with counts := fun i => if i = c then (st.counts c + 1) % 2 ^ 64
                                        else st.counts i } : StopState).tb_exited vaddr =
          ([StopAction.outs (StopMsg.icountReached vaddr)], st.tb_exited,
           some cfg.icount_exit_code) := by
        simp [exit_icount_reached, h3]
      have hstepf : stepInsn cfg st c vaddr =
          ({ st with counts := fun i => if i = c then (st.counts c + 1) % 2 ^ 64
                                        else st.counts i },
           [StopAction.outs (StopMsg.icountReached vaddr)], some cfg.icount_exit_code) := by
        simp only [stepInsn, h1, reduceIte, if_pos hfire, hcb]
      have hrunf : runStop cfg c ([] ++ [vaddr]) st =
          ({ st with counts := fun i => if i = c then (st.counts c + 1) % 2 ^ 64
                                        else st.counts i },
           [StopAction.outs (StopMsg.icountReached vaddr)], some cfg.icount_exit_code) := by
        simp only [List.nil_append, runStop, hstepf]
      exact ⟨by rw [hrunf], by rw [hrunf]⟩
  | cons v vs ih =>
      intro vaddr st hb
      simp only [List.length_cons] at hb
      have hcnt : (st.counts c + 1) % 2 ^ 64 = st.counts c + 1 :=
        Nat.mod_eq_of_lt (by omega)
      have hnofire : ¬ ((cfg.icount + 1) % 2 ^ 64 ≤ (st.counts c + 1) % 2 ^ 64) := by
        rw [hcnt, Nat.mod_eq_of_lt hw64]
        omega
      have hstep : stepInsn cfg st c v =
          ({ st with counts := fun i => if i = c then (st.counts c + 1) % 2 ^ 64
                                        else st.counts i }, [], none) := by
        simp only [stepInsn, h1, reduceIte, if_neg hnofire, h2, Bool.false_and]
        rfl
      have hproj : ({ st with counts := fun i => if i = c then (st.counts c + 1) % 2 ^ 64
                                        else st.counts i } : StopState).counts c
          = (st.counts c + 1) % 2 ^ 64 := by simp
      have hst1 : ({ st with counts := fun i => if i = c then (st.counts c + 1) % 2 ^ 64
                                       else st.counts i } : StopState).counts c
          = st.counts c + 1 := by rw [hproj, hcnt]
      obtain ⟨ha, he⟩ := ih vaddr
        { st with counts := fun i => if i = c then (st.counts c + 1) % 2 ^ 64
                                     else st.counts i }
        (by rw [hst1]; omega)
      have hrun : runStop cfg c ((v :: vs) ++ [vaddr]) st =
          ((runStop cfg c (vs ++ [vaddr])
              { st with counts := fun i => if i = c then (st.counts c + 1) % 2 ^ 64
                                           else st.counts i }).1,
           [] ++ (runStop cfg c (vs ++ [vaddr])
              { st with counts := fun i => if i = c then (st.counts c + 1) % 2 ^ 64
                                           else st.counts i }).2.1,
           (runStop cfg c (vs ++ [vaddr])
              { st with counts := fun i => if i = c then (st.counts c + 1) % 2 ^ 64
                                           else st.counts i }).2.2) := by
        simp only [List.cons_append, runStop, hstep]
        rfl
      constructor
      · rw [hrun]
        simpa using ha
      · rw [hrun]
        exact he

/-- Claim C3: with an instruction-count limit L and exit code C
configured (and no address trigger or snapshot), each retired
instrumented instruction adds exactly one to the per-vCPU counter, the
first L instructions produce no action and no exit, and the (L+1)-th
retired instruction fires the trigger (the counter reaches L + 1) and
terminates the process with exit code C. -/
theorem stoptrigger_icount_limit (cfg : StopConfig) (L : Nat) (C : Int) (c : Nat)
    (h1 : cfg.exit_on_icount = true) (h2 : cfg.exit_on_address = false)
    (h3 : cfg.snapshot_name = none) (h4 : cfg.icount = L) (h5 : cfg.icount_exit_code = C)
    (hL : 1 ≤ L) (hw64 : L + 1 < 2 ^ 64) :
    (∀ vs : List Nat, vs.length ≤ L →
       (runStop cfg c vs initStop).2.1 = [] ∧
       (runStop cfg c vs initStop).2.2 = none ∧
       (runStop cfg c vs initStop).1.counts c = vs.length) ∧
    (∀ (vs : List Nat) (vaddr : Nat), vs.length = L →
       (runStop cfg c (vs ++ [vaddr]) initStop).2.1 =
         [StopAction.outs (StopMsg.icountReached vaddr)] ∧
       (runStop cfg c (vs ++ [vaddr]) initStop).2.2 = some C) := by
  subst h4 h5
  constructor
  · intro vs hvs
    obtain ⟨ha, he, hc, _⟩ := stop_run_below cfg c h1 h2 hw64 vs initStop
      (by simpa [initStop] using hvs)
    refine ⟨ha, he, ?_⟩
    rw [hc]
    simp [initStop]
  · intro vs vaddr hvs
    exact stop_run_fire cfg c h1 h2 h3 hw64 vs vaddr initStop
      (by simpa [initStop] using hvs)

/-- Claim C3 witness: the configuration parsed from icount=5:7 runs five
instructions without exiting (counter 5) and the sixth terminates the
process with exit code 7. -/
theorem stoptrigger_icount_limit_witness :
    qemu_plugin_install ["icount=5:7"] = Except.ok
      { exit_on_icount := true, icount := 5, icount_exit_code := 7,
        exit_on_address := false, addrs := [], snapshot_name := none } ∧
    (runStop { exit_on_icount := true, icount := 5, icount_exit_code := 7,
               exit_on_address := false, addrs := [], snapshot_name := none } 0
       [10, 11, 12, 13, 14] initStop).2.2 = none ∧
    (runStop { exit_on_icount := true, icount := 5, icount_exit_code := 7,
               exit_on_address := false, addrs := [], snapshot_name := none } 0
       [10, 11, 12, 13, 14] initStop).1.counts 0 = 5 ∧
    (runStop { exit_on_icount := true, icount := 5, icount_exit_code := 7,
               exit_on_address := false, addrs := [], snapshot_name := none } 0
       ([10, 11, 12, 13, 14] ++ [15]) initStop).2.2 = some 7 := by
  have h := stoptrigger_icount_limit
    { exit_on_icount := true, icount := 5, icount_exit_code := 7,
      exit_on_address := false, addrs := [], snapshot_name := none }
    5 7 0 rfl rfl rfl rfl rfl (by decide) (by decide)
  exact ⟨by rfl, (h.1 [10, 11, 12, 13, 14] (by decide)).2.1,
    (h.1 [10, 11, 12, 13, 14] (by decide)).2.2,
    (h.2 [10, 11, 12, 13, 14] 15 rfl).2⟩

/-! ## Claim C4 -/

/-- Claim C4: with a snapshot name configured, the first trigger
invocation emits the diagnostic, requests termination of the current
translation block without exiting the process, records that this phase
was entered (tb_exited becomes true) and returns; the next invocation
saves the snapshot under the configured name and terminates with the
configured exit code; a snapshot is never saved before the
translation-block exit has been requested. -/
theorem stoptrigger_savevm_two_phase (cfg : StopConfig) (nm : String) (c vaddr : Nat)
    (h : cfg.snapshot_name = some nm) :
    exit_icount_reached cfg c false vaddr =
      ([StopAction.outs (StopMsg.icountReached vaddr), StopAction.exitTB], true, none) ∧
    exit_icount_reached cfg c true vaddr =
      ([StopAction.savevm nm, StopAction.outs (StopMsg.snapshotSaved nm)], true,
        some cfg.icount_exit_code) ∧
    (∀ b : Bool, (∃ s, StopAction.savevm s ∈ (exit_icount_reached cfg c b vaddr).1) →
       b = true) := by
  refine ⟨by simp [exit_icount_reached, h], by simp [exit_icount_reached, h], ?_⟩
  intro b hb
  cases b with
  | true => rfl
  | false =>
      obtain ⟨s, hs⟩ := hb
      simp [exit_icount_reached, h] at hs

/-- Claim C4 witness: the configuration parsed from icount=3,
savevm=snap1 first requests a translation-block exit with a diagnostic
and no process exit, then on the next invocation saves snapshot snap1
and exits with the default exit code 0. -/
theorem stoptrigger_savevm_two_phase_witness :
    qemu_plugin_install ["icount=3", "savevm=snap1"] = Except.ok
      { exit_on_icount := true, icount := 3, icount_exit_code := 0,
        exit_on_address := false, addrs := [], snapshot_name := some "snap1" } ∧
    exit_icount_reached
      { exit_on_icount := true, icount := 3, icount_exit_code := 0,
        exit_on_address := false, addrs := [], snapshot_name := some "snap1" } 0 false 128 =
      ([StopAction.outs (StopMsg.icountReached 128), StopAction.exitTB], true, none) ∧
    exit_icount_reached
      { exit_on_icount := true, icount := 3, icount_exit_code := 0,
        exit_on_address := false, addrs := [], snapshot_name := some "snap1" } 0 true 128 =
      ([StopAction.savevm "snap1", StopAction.outs (StopMsg.snapshotSaved "snap1")], true,
        some 0) := by
  have h := stoptrigger_savevm_two_phase
    { exit_on_icount := true, icount := 3, icount_exit_code := 0,
      exit_on_address := false, addrs := [], snapshot_name := some "snap1" }
    "snap1" 0 128 rfl
  exact ⟨by rfl, h.1, h.2.1⟩

/-! ## Claim C5 -/

/-- Claim C5: with no snapshot configured, the address-trigger callback
terminates the process immediately with the exit code mapped to the
triggering address, without requesting a translation-block exit; at the
driver level, executing an instruction at a registered trigger address
(with no icount trigger) exits at once, leaving the state unchanged. -/
theorem stoptrigger_addr_immediate_exit (cfg : StopConfig) (c : Nat) (tb : Bool)
    (vaddr : Nat) (h : cfg.snapshot_name = none) :
    exit_address_reached cfg c tb vaddr =
      ([StopAction.outs (StopMsg.addressReached vaddr)], tb,
        some (htLookup cfg.addrs vaddr)) ∧
    StopAction.exitTB ∉ (exit_address_reached cfg c tb vaddr).1 ∧
    (cfg.exit_on_icount = false → cfg.exit_on_address = true →
       htContains cfg.addrs vaddr = true →
       ∀ st : StopState, st.tb_exited = tb → stepInsn cfg st c vaddr =
         (st, [StopAction.outs (StopMsg.addressReached vaddr)],
          some (htLookup cfg.addrs vaddr))) := by
  have hcb : exit_address_reached cfg c tb vaddr =
      ([StopAction.outs (StopMsg.addressReached vaddr)], tb,
        some (htLookup cfg.addrs vaddr)) := by
    simp [exit_address_reached, h]
  refine ⟨hcb, by simp [hcb], ?_⟩
  intro hic haddr hcont st hst
  have hcb2 : exit_address_reached cfg c st.tb_exited vaddr =
      ([StopAction.outs (StopMsg.addressReached vaddr)], st.tb_exited,
        some (htLookup cfg.addrs vaddr)) := by
    simp [exit_address_reached, h]
  simp only [stepInsn, hic, Bool.false_eq_true, if_false, haddr, hcont, Bool.and_self,
    reduceIte, hcb2]

/-- Claim C5 witness: with the configuration parsed from addr=0x1000:2,
an instruction at address 0x1000 exits immediately with code 2 and no
translation-block exit request. -/
theorem stoptrigger_addr_immediate_exit_witness :
    qemu_plugin_install ["addr=0x1000:2"] = Except.ok
      { exit_on_icount := false, icount := 0, icount_exit_code := 0,
        exit_on_address := true, addrs := [(4096, 2)], snapshot_name := none } ∧
    exit_address_reached
      { exit_on_icount := false, icount := 0, icount_exit_code := 0,
        exit_on_address := true, addrs := [(4096, 2)], snapshot_name := none } 0 false 4096 =
      ([StopAction.outs (StopMsg.addressReached 4096)], false, some 2) ∧
    stepInsn
      { exit_on_icount := false, icount := 0, icount_exit_code := 0,
        exit_on_address := true, addrs := [(4096, 2)], snapshot_name := none }
      initStop 0 4096 =
      (initStop, [StopAction.outs (StopMsg.addressReached 4096)], some 2) := by
  have h := stoptrigger_addr_immediate_exit
    { exit_on_icount := false, icount := 0, icount_exit_code := 0,
      exit_on_address := true, addrs := [(4096, 2)], snapshot_name := none }
    0 false 4096 rfl
  refine ⟨by rfl, ?_, ?_⟩
  · rw [h.1]
    decide
  · rw [h.2.2 rfl rfl (by decide) initStop rfl]
    have : htLookup [(4096, 2)] 4096 = 2 := by decide
    rw [this]

/-! ## Claim C9 -/

/-- Claim C9: tb_exited is one process-global flag shared by the icount
trigger and the address trigger: once it is set, any invocation of
either callback takes the terminal path (snapshot, then process exit)
and requests no second translation-block exit; neither callback ever
resets the flag; either callback's first invocation sets it; and both
callbacks ignore the vCPU index entirely. -/
theorem stoptrigger_tb_exited_global (cfg : StopConfig) (nm : String)
    (c c2 vaddr vaddr2 : Nat) (h : cfg.snapshot_name = some nm) :
    exit_icount_reached cfg c true vaddr =
      ([StopAction.savevm nm, StopAction.outs (StopMsg.snapshotSaved nm)], true,
        some cfg.icount_exit_code) ∧
    exit_address_reached cfg c true vaddr =
      ([StopAction.savevm nm, StopAction.outs (StopMsg.snapshotSaved nm)], true,
        some (htLookup cfg.addrs vaddr)) ∧
    StopAction.exitTB ∉ (exit_icount_reached cfg c true vaddr).1 ∧
    StopAction.exitTB ∉ (exit_address_reached cfg c true vaddr).1 ∧
    (exit_icount_reached cfg c false vaddr).2.1 = true ∧
    (exit_address_reached cfg c2 false vaddr2).2.1 = true ∧
    (∀ b : Bool, b = true → (exit_icount_reached cfg c b vaddr).2.1 = true) ∧
    (∀ b : Bool, b = true → (exit_address_reached cfg c b vaddr).2.1 = true) ∧
    (∀ b : Bool, exit_icount_reached cfg c b vaddr = exit_icount_reached cfg c2 b vaddr) ∧
    (∀ b : Bool, exit_address_reached cfg c b vaddr = exit_address_reached cfg c2 b vaddr) := by
  refine ⟨by simp [exit_icount_reached, h], by simp [exit_address_reached, h],
    by simp [exit_icount_reached, h], by simp [exit_address_reached, h],
    by simp [exit_icount_reached, h], by simp [exit_address_reached, h],
    ?_, ?_, ?_, ?_⟩
  · intro b hb
    subst hb
    simp [exit_icount_reached, h]
  · intro b hb
    subst hb
    simp [exit_address_reached, h]
  · intro b
    rfl
  · intro b
    rfl

/-- Claim C9 witness: with a snapshot configured, an address-trigger
invocation sets the flag, after which an icount-trigger invocation on a
different vCPU takes the terminal path. -/
theorem stoptrigger_tb_exited_global_witness :
    (exit_address_reached
      { exit_on_icount := true, icount := 3, icount_exit_code := 5,
        exit_on_address := true, addrs := [(4096, 2)], snapshot_name := some "s" }
      1 false 4096).2.1 = true ∧
    exit_icount_reached
      { exit_on_icount := true, icount := 3, icount_exit_code := 5,
        exit_on_address := true, addrs := [(4096, 2)], snapshot_name := some "s" }
      0 true 64 =
      ([StopAction.savevm "s", StopAction.outs (StopMsg.snapshotSaved "s")], true,
        some 5) := by
  have h := stoptrigger_tb_exited_global
    { exit_on_icount := true, icount := 3, icount_exit_code := 5,
      exit_on_address := true, addrs := [(4096, 2)], snapshot_name := some "s" }
    "s" 0 1 64 4096 rfl
  refine ⟨?_, h.1⟩
  have h2 := stoptrigger_tb_exited_global
    { exit_on_icount := true, icount := 3, icount_exit_code := 5,
      exit_on_address := true, addrs := [(4096, 2)], snapshot_name := some "s" }
    "s" 0 1 64 4096 rfl
  exact h2.2.2.2.2.2.1

/-! ## Claim C6 (corrected) -/

/-- Claim C6 counterexample: malformed numeric tokens are NOT always
rejected.  The configuration addr=zzz has a malformed numeric token
(zzz parses as 0 with no error check) and icount=99z has trailing
garbage after the digits; both install successfully (return 0), so the
claim that every malformed numeric token causes a non-zero status
fails. -/
theorem stoptrigger_malformed_addr_accepted :
    qemu_plugin_install ["addr=zzz"] = Except.ok
      { exit_on_icount := false, icount := 0, icount_exit_code := 0,
        exit_on_address := true, addrs := [(0, 0)], snapshot_name := none } ∧
    qemu_plugin_install ["icount=99z"] = Except.ok
      { exit_on_icount := true, icount := 99, icount_exit_code := 0,
        exit_on_address := false, addrs := [], snapshot_name := none } := by
  constructor
  · rfl
  · rfl

/-- An argument whose key is neither icount nor addr leaves both
trigger flags unchanged when it parses successfully. -/
theorem parseOpt_preserves_triggers (cfg : StopConfig) (a : String)
    (h1 : (splitMax2 '=' a).head? ≠ some "icount")
    (h2 : (splitMax2 '=' a).head? ≠ some "addr") :
    ∀ cfg1, parseOpt cfg a = Except.ok cfg1 →
      cfg1.exit_on_icount = cfg.exit_on_icount ∧
      cfg1.exit_on_address = cfg.exit_on_address := by
  intro cfg1 hp
  unfold parseOpt at hp
  cases hsplit : splitMax2 '=' a with
  | nil =>
      rw [hsplit] at hp
      simp at hp
  | cons key rest =>
      rw [hsplit] at h1 h2 hp
      dsimp only at hp
      have hk1 : ¬ (key = "icount") := by simpa using h1
      have hk2 : ¬ (key = "addr") := by simpa using h2
      rw [if_neg hk1, if_neg hk2] at hp
      by_cases hk3 : key = "savevm"
      · rw [if_pos hk3] at hp
        cases rest with
        | nil =>
            simp only [Except.ok.injEq] at hp
            rw [← hp]
            exact ⟨rfl, rfl⟩
        | cons v rest2 =>
            cases rest2 with
            | nil =>
                simp only [Except.ok.injEq] at hp
                rw [← hp]
                exact ⟨rfl, rfl⟩
            | cons w rest3 =>
                simp only [Except.ok.injEq] at hp
                rw [← hp]
                exact ⟨rfl, rfl⟩
      · rw [if_neg hk3] at hp
        simp at hp

/-- Folding the option loop over arguments without icount or addr keys
either fails or leaves both trigger flags as they started. -/
theorem install_loop_no_trigger : ∀ (args : List String) (cfg : StopConfig),
    (∀ a ∈ args, (splitMax2 '=' a).head? ≠ some "icount" ∧
                 (splitMax2 '=' a).head? ≠ some "addr") →
    ∀ cfg2, List.foldlM parseOpt cfg args = Except.ok cfg2 →
      cfg2.exit_on_icount = cfg.exit_on_icount ∧
      cfg2.exit_on_address = cfg.exit_on_address := by
  intro args
  induction args with
  | nil =>
      intro cfg _ cfg2 h
      simp only [List.foldlM_nil] at h
      simp only [pure, Except.pure, Except.ok.injEq] at h
      rw [← h]
      exact ⟨rfl, rfl⟩
  | cons a args ih =>
      intro cfg hall cfg2 h
      rw [List.foldlM_cons] at h
      cases hpa : parseOpt cfg a with
      | error e =>
          rw [hpa] at h
          simp only [bind, Except.bind] at h
          simp at h
      | ok cfg1 =>
          rw [hpa] at h
          simp only [bind, Except.bind] at h
          obtain ⟨p1, p2⟩ := parseOpt_preserves_triggers cfg a
            (hall a (List.mem_cons_self a args)).1
            (hall a (List.mem_cons_self a args)).2 cfg1 hpa
          obtain ⟨q1, q2⟩ := ih cfg1
            (fun x hx => hall x (List.mem_cons_of_mem a hx)) cfg2 h
          exact ⟨q1.trans p1, q2.trans p2⟩

/-- Claim C6 as amended: plugin setup fails with a non-zero status and a
descriptive message, installing no instrumentation, whenever (a)
neither an icount key nor an addr key is present, (b) the icount token
parses to a value below 1 (which covers icount=0 and wholly
non-numeric tokens) or contains a minus sign (which covers icount=-1),
or (c) an unknown or empty option key is given.  Malformed numeric
tokens are not rejected in general: trailing garbage after digits,
malformed addr values and malformed exit codes are accepted silently
(see the counterexample). -/
theorem stoptrigger_install_rejections :
    (∀ args : List String,
       (∀ a ∈ args, (splitMax2 '=' a).head? ≠ some "icount" ∧
                    (splitMax2 '=' a).head? ≠ some "addr") →
       ∃ e, qemu_plugin_install args = Except.error e) ∧
    (∀ (a : String) (args : List String) (v : String),
       splitMax2 '=' a = ["icount", v] →
       (strtoull0 ((splitMax2 ':' v).headD "") < 1 ∨
        ((splitMax2 ':' v).headD "").toList.contains '-' = true) →
       qemu_plugin_install (a :: args) = Except.error InstallError.icountParseFailed) ∧
    (∀ (a : String) (args : List String) (key : String) (rest : List String),
       splitMax2 '=' a = key :: rest →
       key ≠ "icount" → key ≠ "addr" → key ≠ "savevm" →
       qemu_plugin_install (a :: args) = Except.error InstallError.optionParseFailed) ∧
    (∀ (a : String) (args : List String),
       splitMax2 '=' a = [] →
       qemu_plugin_install (a :: args) = Except.error InstallError.optionParseFailed) := by
  refine ⟨?_, ?_, ?_, ?_⟩
  · intro args hall
    unfold qemu_plugin_install
    cases hf : List.foldlM parseOpt initStopConfig args with
    | error e => exact ⟨e, rfl⟩
    | ok cfg2 =>
        obtain ⟨q1, q2⟩ := install_loop_no_trigger args initStopConfig hall cfg2 hf
        refine ⟨InstallError.missingTrigger, ?_⟩
        have hq1 : cfg2.exit_on_icount = false := q1
        have hq2 : cfg2.exit_on_address = false := q2
        simp [hq1, hq2]
  · intro a args v hsplit hbad
    have hpa : parseOpt initStopConfig a = Except.error InstallError.icountParseFailed := by
      unfold parseOpt
      rw [hsplit]
      dsimp only
      rw [if_pos rfl, if_pos hbad]
    unfold qemu_plugin_install
    rw [List.foldlM_cons, hpa]
    rfl
  · intro a args key rest hsplit hk1 hk2 hk3
    have hpa : parseOpt initStopConfig a = Except.error InstallError.optionParseFailed := by
      unfold parseOpt
      rw [hsplit]
      dsimp only
      rw [if_neg hk1, if_neg hk2, if_neg hk3]
    unfold qemu_plugin_install
    rw [List.foldlM_cons, hpa]
    rfl
  · intro a args hsplit
    have hpa : parseOpt initStopConfig a = Except.error InstallError.optionParseFailed := by
      unfold parseOpt
      rw [hsplit]
    unfold qemu_plugin_install
    rw [List.foldlM_cons, hpa]
    rfl

/-- Claim C6 witness: concrete rejected configurations — no arguments at
all, only a savevm key, icount=-1, icount=0 and an unknown key all
fail with a non-zero status and a descriptive message. -/
theorem stoptrigger_install_rejections_witness :
    (∃ e, qemu_plugin_install [] = Except.error e) ∧
    (∃ e, qemu_plugin_install ["savevm=s"] = Except.error e) ∧
    qemu_plugin_install ["icount=-1"] = Except.error InstallError.icountParseFailed ∧
    qemu_plugin_install ["icount=0"] = Except.error InstallError.icountParseFailed ∧
    qemu_plugin_install ["foo=bar"] = Except.error InstallError.optionParseFailed := by
  refine ⟨stoptrigger_install_rejections.1 [] (by simp),
    stoptrigger_install_rejections.1 ["savevm=s"] (by decide),
    stoptrigger_install_rejections.2.1 "icount=-1" [] "-1" (by decide) (by decide),
    stoptrigger_install_rejections.2.1 "icount=0" [] "0" (by decide) (by decide),
    stoptrigger_install_rejections.2.2.1 "foo=bar" [] "foo" ["bar"] (by decide)
      (by decide) (by decide) (by decide)⟩

/-! ## Claim C10 -/

/-- Once the global counter is strictly above the configured icount and
cannot wrap within the run, the skip branch never fires again. -/
theorem runSkip_no_fire (icount : Nat) : ∀ (infos : List InsnInfo) (c : Nat),
    icount < c → c + infos.length ≤ 2 ^ 64 →
    (runSkip icount c infos).2 = [] := by
  intro infos
  induction infos with
  | nil =>
      intro c h1 h2
      rfl
  | cons v vs ih =>
      intro c h1 h2
      simp only [List.length_cons] at h2
      have hne : ¬ (c = icount) := by omega
      have hstep : skip_insn_exec icount v c = ((c + 1) % 2 ^ 64, []) := by
        simp [skip_insn_exec, hne]
      by_cases hlt : c + 1 < 2 ^ 64
      · have hmod : (c + 1) % 2 ^ 64 = c + 1 := Nat.mod_eq_of_lt hlt
        have hrest := ih (c + 1) (by omega) (by omega)
        simp only [runSkip, hstep, hmod, hrest, List.append_nil]
      · have hvs : vs.length = 0 := by omega
        have hnil : vs = [] := List.length_eq_zero.mp hvs
        subst hnil
        simp only [runSkip, hstep, List.append_nil]

/-- Starting at or below the configured icount, a run short enough not
to wrap the 64-bit counter fires the skip at most once. -/
theorem runSkip_pre (icount : Nat) (hic : icount < 2 ^ 64) :
    ∀ (infos : List InsnInfo) (c : Nat), c ≤ icount →
      c + infos.length ≤ 2 ^ 64 - 1 →
      skipCount (runSkip icount c infos).2 ≤ 1 := by
  intro infos
  induction infos with
  | nil =>
      intro c h1 h2
      simp [runSkip, skipCount]
  | cons v vs ih =>
      intro c h1 h2
      simp only [List.length_cons] at h2
      by_cases hc : c = icount
      · have hm1 : (icount + 1) % 2 ^ 64 = icount + 1 :=
          Nat.mod_eq_of_lt (by omega)
        have hstep : skip_insn_exec icount v c =
            ((icount + 1 + 1) % 2 ^ 64,
             [SkipAction.outsSkipping v.vaddr,
              SkipAction.setPC ((v.vaddr + v.size) % 2 ^ 64),
              SkipAction.outsPcSet ((v.vaddr + v.size) % 2 ^ 64),
              SkipAction.exitTB]) := by
          simp [skip_insn_exec, hc, hm1]
        have hacts : skipCount
            [SkipAction.outsSkipping v.vaddr,
             SkipAction.setPC ((v.vaddr + v.size) % 2 ^ 64),
             SkipAction.outsPcSet ((v.vaddr + v.size) % 2 ^ 64),
             SkipAction.exitTB] = 1 := by
          simp [skipCount, List.countP_cons, isExitTB]
        by_cases h2lt : icount + 2 < 2 ^ 64
        · have hm2 : (icount + 1 + 1) % 2 ^ 64 = icount + 2 :=
            Nat.mod_eq_of_lt (by omega)
          have hrest := runSkip_no_fire icount vs (icount + 2) (by omega) (by omega)
          have hcnt2 : skipCount (runSkip icount ((icount + 1 + 1) % 2 ^ 64) vs).2 = 0 := by
            rw [hm2, hrest]
            rfl
          simp only [runSkip, hstep, skipCount, List.countP_append] at hcnt2 ⊢
          simp only [skipCount] at hacts
          rw [hacts, hcnt2]
        · have hvs : vs.length = 0 := by omega
          have hnil : vs = [] := List.length_eq_zero.mp hvs
          subst hnil
          have hcnt2 : skipCount (runSkip icount ((icount + 1 + 1) % 2 ^ 64) []).2 = 0 := rfl
          simp only [runSkip, hstep, skipCount, List.countP_append] at hcnt2 ⊢
          simp only [skipCount] at hacts
          rw [hacts, hcnt2]
      · have hstep : skip_insn_exec icount v c = ((c + 1) % 2 ^ 64, []) := by
          simp [skip_insn_exec, hc]
        have hmod : (c + 1) % 2 ^ 64 = c + 1 := Nat.mod_eq_of_lt (by omega)
        have hrest := ih (c + 1) (by omega) (by omega)
        simp only [runSkip, hstep, hmod, List.nil_append]
        exact hrest

/-- Claim C10: the skip action of skipinsn.c fires exactly on the
invocation where the global executed-instruction counter equals the
configured icount (program-counter override to the address just past
the instruction, then a translation-block exit request); on that
invocation the counter advances by two, strictly exceeding the
threshold, and in any run of fewer than 2 ^ 64 callbacks from a fresh
counter the skip happens at most once. -/
theorem skipinsn_skip_at_most_once (icount : Nat) (infos : List InsnInfo)
    (hic : icount < 2 ^ 64) (hlen : infos.length ≤ 2 ^ 64 - 1) :
    (∀ (info : InsnInfo) (c : Nat), c ≠ icount →
       skip_insn_exec icount info c = ((c + 1) % 2 ^ 64, [])) ∧
    (∀ info : InsnInfo, skip_insn_exec icount info icount =
       (((icount + 1) % 2 ^ 64 + 1) % 2 ^ 64,
        [SkipAction.outsSkipping info.vaddr,
         SkipAction.setPC ((info.vaddr + info.size) % 2 ^ 64),
         SkipAction.outsPcSet ((info.vaddr + info.size) % 2 ^ 64),
         SkipAction.exitTB])) ∧
    (icount + 2 < 2 ^ 64 →
       ∀ info : InsnInfo, icount < (skip_insn_exec icount info icount).1) ∧
    skipCount (runSkip icount 0 infos).2 ≤ 1 := by
  have hfire : ∀ info : InsnInfo, skip_insn_exec icount info icount =
      (((icount + 1) % 2 ^ 64 + 1) % 2 ^ 64,
       [SkipAction.outsSkipping info.vaddr,
        SkipAction.setPC ((info.vaddr + info.size) % 2 ^ 64),
        SkipAction.outsPcSet ((info.vaddr + info.size) % 2 ^ 64),
        SkipAction.exitTB]) := by
    intro info
    simp [skip_insn_exec]
  refine ⟨?_, hfire, ?_, ?_⟩
  · intro info c hne
    simp [skip_insn_exec, hne]
  · intro hlt info
    rw [hfire info]
    have hm1 : (icount + 1) % 2 ^ 64 = icount + 1 := Nat.mod_eq_of_lt (by omega)
    show icount < ((icount + 1) % 2 ^ 64 + 1) % 2 ^ 64
    rw [hm1]
    have hm2 : (icount + 1 + 1) % 2 ^ 64 = icount + 2 := Nat.mod_eq_of_lt (by omega)
    rw [hm2]
    omega
  · exact runSkip_pre icount hic infos 0 (by omega) (by omega)

/-- Claim C10 witness: with icount 1, the callback at counter 1 skips
(counter advances to 3, program counter set past the instruction) and a
three-instruction run contains at most one skip. -/
theorem skipinsn_skip_at_most_once_witness :
    skip_insn_exec 1 ⟨104, 4⟩ 1 =
      (3, [SkipAction.outsSkipping 104, SkipAction.setPC 108,
           SkipAction.outsPcSet 108, SkipAction.exitTB]) ∧
    skipCount (runSkip 1 0 [⟨100, 4⟩, ⟨104, 4⟩, ⟨108, 4⟩]).2 ≤ 1 := by
  have h := skipinsn_skip_at_most_once 1 [⟨100, 4⟩, ⟨104, 4⟩, ⟨108, 4⟩]
    (by decide) (by decide)
  refine ⟨?_, h.2.2.2⟩
  rw [h.2.1 ⟨104, 4⟩]
  decide
